import Mathlib

/-!
Verification of the three lock-free data structures of the repository:
the bounded SPSC ring buffer (`SPSCRingBuffer.h`), the unbounded MPSC
queue (`MPSCQueue.h`) and the unbounded MPMC stack (`LockFreeStack.h`).

The C++ code is shallowly embedded as pure Lean functions.  `std::size_t`
and `std::uintptr_t` are 64-bit unsigned integers; they are modelled as
`Nat`, with an explicit reduction modulo `U64 = 2 ^ 64` at every point
where the C++ arithmetic can wrap around.  Heap nodes of the two linked
structures are modelled by an arena (a list of node records addressed by
allocation index); `delete` only returns memory to the allocator and has
no observable effect, so freed nodes simply stay in the arena.  All
operations are given their sequential (single-thread) semantics: a
compare-exchange whose load is not interfered with succeeds on the first
attempt, so the retry loops of the stack run exactly once.
-/

/-- The modulus of 64-bit unsigned arithmetic (`std::size_t`, `std::uintptr_t`). -/
def U64 : Nat := 2 ^ 64

/-!
## SPSC ring buffer (`SPSCRingBuffer.h`)

State: `mHead` (consumer index), `mTail` (producer index), `mBuffer`
(the fixed `std::array<T, CAPACITY>` of `CAPACITY = N` slots).  The C++
class statically requires `N` to be a power of two and at least 2; as a
`std::size_t` value it is also below `2 ^ 64`.
-/

structure SPSCRingBuffer (α : Type) (N : Nat) where
  mHead : Nat
  mTail : Nat
  mBuffer : List α
deriving DecidableEq, Repr

namespace SPSCRingBuffer

/-- A freshly constructed buffer: `mHead = mTail = 0`, value-initialized slots. -/
def init {α : Type} [Inhabited α] (N : Nat) : SPSCRingBuffer α N :=
  ⟨0, 0, List.replicate N default⟩

/-- `bool push(const T& item)` (the move overload is line-for-line identical):
load `tail`, compute `next = (tail + 1) & (CAPACITY - 1)`, abort if
`next == head`, otherwise store into `mBuffer[tail]` and publish `next`
as the new tail.  The increment is `std::size_t` arithmetic, hence the
reduction modulo `U64` before masking. -/
def push {α : Type} {N : Nat} (rb : SPSCRingBuffer α N) (item : α) :
    Bool × SPSCRingBuffer α N :=
  let tail := rb.mTail
  let next := ((tail + 1) % U64) &&& (N - 1)
  if next = rb.mHead then
    (false, rb)
  else
    (true, { rb with mTail := next, mBuffer := rb.mBuffer.set tail item })

/-- `bool pop(T& item)`: abort if `head == tail`, otherwise move
`mBuffer[head]` into `item` and publish `(head + 1) & (CAPACITY - 1)` as
the new head.  The result triple is (return value, new state, value of
the output argument after the call); on failure the output argument
keeps its previous value `item`. -/
def pop {α : Type} {N : Nat} (rb : SPSCRingBuffer α N) (item : α) :
    Bool × SPSCRingBuffer α N × α :=
  let head := rb.mHead
  if head = rb.mTail then
    (false, rb, item)
  else
    (true, { rb with mHead := ((head + 1) % U64) &&& (N - 1) },
      rb.mBuffer.getD head item)

/-- `bool empty()`: `head == tail`. -/
def empty {α : Type} {N : Nat} (rb : SPSCRingBuffer α N) : Bool :=
  rb.mHead == rb.mTail

/-- `bool full()`: `(tail + 1) & (CAPACITY - 1) == head`. -/
def full {α : Type} {N : Nat} (rb : SPSCRingBuffer α N) : Bool :=
  (((rb.mTail + 1) % U64) &&& (N - 1)) == rb.mHead

/-- `size_t size()`: `(tail - head + CAPACITY) & (CAPACITY - 1)`, where
`tail - head` is the wrapping `std::size_t` subtraction
`(tail + (2^64 - head)) mod 2^64` (the states we quantify over always
have `head ≤ 2^64`). -/
def size {α : Type} {N : Nat} (rb : SPSCRingBuffer α N) : Nat :=
  (((rb.mTail + (U64 - rb.mHead)) % U64 + N) % U64) &&& (N - 1)

/-- `size_t capacity()`: `CAPACITY - 1` (one slot is kept unused). -/
def capacity {α : Type} {N : Nat} (_ : SPSCRingBuffer α N) : Nat :=
  N - 1

end SPSCRingBuffer

/-- An operation on the ring buffer: a push of a given value, or a pop. -/
inductive RBOp (α : Type) where
  | push : α → RBOp α
  | pop : RBOp α
deriving DecidableEq, Repr

/-- A run of the ring buffer: current state, the values successfully
pushed so far (in push order) and the values returned by successful
pops so far (in pop order). -/
structure RBTrace (α : Type) (N : Nat) where
  state : SPSCRingBuffer α N
  pushed : List α
  popped : List α
deriving DecidableEq, Repr

/-- Execute one operation of a sequential run, recording successfully
pushed and popped values. -/
def RBTrace.step {α : Type} [Inhabited α] {N : Nat} (t : RBTrace α N) :
    RBOp α → RBTrace α N
  | .push v =>
    let r := t.state.push v
    if r.1 then ⟨r.2, t.pushed ++ [v], t.popped⟩ else ⟨r.2, t.pushed, t.popped⟩
  | .pop =>
    let r := t.state.pop default
    if r.1 then ⟨r.2.1, t.pushed, t.popped ++ [r.2.2]⟩
    else ⟨r.2.1, t.pushed, t.popped⟩

/-- Run a sequence of operations from a freshly constructed buffer. -/
def RBTrace.run {α : Type} [Inhabited α] (N : Nat) (ops : List (RBOp α)) :
    RBTrace α N :=
  ops.foldl RBTrace.step ⟨SPSCRingBuffer.init N, [], []⟩

/-- The mathematical element count of a ring buffer with head `h` and
tail `t`: `(t - h) mod N`, written without wrapping subtraction. -/
def rbSz (N h t : Nat) : Nat :=
  (t + (N - h)) % N

/-- The abstract FIFO content of the buffer: the `rbSz` values starting
at `mHead`, in pop order. -/
def SPSCRingBuffer.contents {α : Type} [Inhabited α] {N : Nat}
    (rb : SPSCRingBuffer α N) : List α :=
  (List.range (rbSz N rb.mHead rb.mTail)).map
    (fun i => rb.mBuffer.getD ((rb.mHead + i) % N) default)

/-- The structural invariant of every reachable ring-buffer state: both
indices are in `[0, N)` and the slot array has exactly `N` slots. -/
def SPSCRingBuffer.Inv {α : Type} {N : Nat} (rb : SPSCRingBuffer α N) : Prop :=
  rb.mHead < N ∧ rb.mTail < N ∧ rb.mBuffer.length = N

/-- A legal ring-buffer capacity: a power of two that is at least 2 and
representable as a `std::size_t` (the C++ class enforces the first two
requirements with static assertions; the third is imposed by the type of
the template parameter). -/
def GoodCap (N : Nat) : Prop :=
  ∃ k, 1 ≤ k ∧ k ≤ 64 ∧ N = 2 ^ k

/-- The refinement invariant of a ring-buffer run: the state is
structurally well formed and pops-so-far followed by the current content
reconstruct the successfully pushed sequence. -/
def RBGood {α : Type} [Inhabited α] {N : Nat} (t : RBTrace α N) : Prop :=
  t.state.Inv ∧ t.popped ++ t.state.contents = t.pushed

/-!
## MPSC queue (`MPSCQueue.h`)

A singly linked list with a dummy (sentinel) node.  Heap nodes are held
in an arena: node `i` is `arena[i] = (next, data)`, mirroring
`struct Node { std::atomic<Node*> next; T data; }`.  `head_` and `tail_`
are node indices.  `delete` of the old dummy in `pop` is memory
management only and leaves no observable trace, so the freed node simply
remains in the arena.
-/

structure MPSCQueue (α : Type) where
  arena : List (Option Nat × α)
  head_ : Nat
  tail_ : Nat
deriving DecidableEq, Repr

namespace MPSCQueue

/-- The constructor: a single dummy node with null `next` and
default-initialized `data`; `head_` and `tail_` both point at it. -/
def init {α : Type} [Inhabited α] : MPSCQueue α :=
  ⟨[(none, default)], 0, 0⟩

/-- `bool push_node(Node* node)` for an already-allocated node holding
`data`: exchange `tail_` for the new node (obtaining the previous tail),
then store the link `prev->next = node`.  Always returns `true`. -/
def push_node {α : Type} [Inhabited α] (q : MPSCQueue α) (data : α) :
    Bool × MPSCQueue α :=
  let node := q.arena.length
  let arena1 := q.arena ++ [(none, data)]
  let prev := q.tail_
  let arena2 := arena1.set prev (some node, (arena1.getD prev (none, default)).2)
  (true, ⟨arena2, q.head_, node⟩)

/-- `bool push(const T& value)`: allocate a node with `next = nullptr`
holding a copy of `value`, then `push_node`. -/
def push {α : Type} [Inhabited α] (q : MPSCQueue α) (value : α) :
    Bool × MPSCQueue α :=
  push_node q value

/-- `bool push(T&& value)`: identical to the copy overload except that
the value is moved into the node, which is unobservable here. -/
def pushMove {α : Type} [Inhabited α] (q : MPSCQueue α) (value : α) :
    Bool × MPSCQueue α :=
  push_node q value

/-- `bool pop(T& value)`: read `head_->next`; if null the queue is empty
and `value` is untouched; otherwise move that node's data into `value`,
delete the old dummy and advance `head_`.  The result triple is (return
value, new state, value of the output argument after the call). -/
def pop {α : Type} [Inhabited α] (q : MPSCQueue α) (value : α) :
    Bool × MPSCQueue α × α :=
  match (q.arena.getD q.head_ (none, default)).1 with
  | none => (false, q, value)
  | some n => (true, ⟨q.arena, n, q.tail_⟩, (q.arena.getD n (none, default)).2)

/-- `bool empty()`: `head_->next == nullptr`. -/
def empty {α : Type} [Inhabited α] (q : MPSCQueue α) : Bool :=
  (q.arena.getD q.head_ (none, default)).1 == none

end MPSCQueue

/-!
## MPMC stack (`LockFreeStack.h`)

Nodes live in an arena: node `i` is `arena[i] = (data, next)`, mirroring
`struct Node { T data; Node* next; }`.  The head is a tagged pointer
`{Node* ptr; uintptr_t counter}`.  Under the sequential semantics the
`compare_exchange_weak` succeeds on its first attempt (the head cannot
change between the load and the CAS), so each retry loop runs once.
`counter` and `mSize` are 64-bit unsigned values and wrap modulo `U64`.
-/

structure TaggedPtr where
  ptr : Option Nat
  counter : Nat
deriving DecidableEq, Repr

structure LockFreeStack (α : Type) where
  arena : List (α × Option Nat)
  mHead : TaggedPtr
  mSize : Nat
deriving DecidableEq, Repr

namespace LockFreeStack

/-- A freshly constructed stack: `mHead = {nullptr, 0}`, `mSize = 0`. -/
def init {α : Type} : LockFreeStack α :=
  ⟨[], ⟨none, 0⟩, 0⟩

/-- `void push_node(Node* node)` for a node holding `value`: link
`node->next = head.ptr`, install `{node, head.counter + 1}` as the new
head, and increment the approximate size.  Both counters use wrapping
64-bit arithmetic. -/
def push_node {α : Type} (s : LockFreeStack α) (value : α) : LockFreeStack α :=
  let node := s.arena.length
  { arena := s.arena ++ [(value, s.mHead.ptr)],
    mHead := ⟨some node, (s.mHead.counter + 1) % U64⟩,
    mSize := (s.mSize + 1) % U64 }

/-- `void push(const T& value)`: allocate a node with a copy of the
value, then `push_node`. -/
def push {α : Type} (s : LockFreeStack α) (value : α) : LockFreeStack α :=
  push_node s value

/-- `void push(T&& value)`: identical to the copy overload except that
the value is moved into the node, which is unobservable here. -/
def pushMove {α : Type} (s : LockFreeStack α) (value : α) : LockFreeStack α :=
  push_node s value

/-- `bool pop(T& value)`: if `head.ptr` is null the stack is empty and
`value` is untouched; otherwise install `{head.ptr->next, counter + 1}`,
move the popped node's data into `value`, delete the node and decrement
the approximate size (wrapping `fetch_sub` on a 64-bit unsigned).  The
result triple is (return value, new state, value of the output argument
after the call). -/
def pop {α : Type} [Inhabited α] (s : LockFreeStack α) (value : α) :
    Bool × LockFreeStack α × α :=
  match s.mHead.ptr with
  | none => (false, s, value)
  | some i =>
    let node := s.arena.getD i (default, none)
    (true,
      { arena := s.arena,
        mHead := ⟨node.2, (s.mHead.counter + 1) % U64⟩,
        mSize := (s.mSize + (U64 - 1)) % U64 },
      node.1)

/-- `bool empty()`: `mSize == 0`. -/
def empty {α : Type} (s : LockFreeStack α) : Bool :=
  s.mSize == 0

/-- `size_t size()`: the approximate counter `mSize`. -/
def size {α : Type} (s : LockFreeStack α) : Nat :=
  s.mSize

end LockFreeStack

/-- An operation on the stack: a push of a given value, or a pop. -/
inductive SOp (α : Type) where
  | push : α → SOp α
  | pop : SOp α
deriving DecidableEq, Repr

/-- A run of the stack: current state together with the outcome of every
pop so far (`some v` for a successful pop returning `v`, `none` for a
pop that reported empty). -/
structure STrace (α : Type) where
  state : LockFreeStack α
  outs : List (Option α)
deriving DecidableEq, Repr

/-- Execute one stack operation of a sequential run. -/
def STrace.step {α : Type} [Inhabited α] (t : STrace α) : SOp α → STrace α
  | .push v => ⟨t.state.push v, t.outs⟩
  | .pop =>
    let r := t.state.pop default
    if r.1 then ⟨r.2.1, t.outs ++ [some r.2.2]⟩ else ⟨r.2.1, t.outs ++ [none]⟩

/-- Run a sequence of stack operations from a freshly constructed stack. -/
def STrace.run {α : Type} [Inhabited α] (ops : List (SOp α)) : STrace α :=
  ops.foldl STrace.step ⟨LockFreeStack.init, []⟩

/-- One step of the ideal LIFO machine: the state is the list of stored
values, most recent first, together with the pop outcomes so far. -/
def lifoStep {α : Type} (t : List α × List (Option α)) : SOp α → List α × List (Option α)
  | .push v => (v :: t.1, t.2)
  | .pop =>
    match t.1 with
    | [] => ([], t.2 ++ [none])
    | x :: xs => (xs, t.2 ++ [some x])

/-- Run of the ideal LIFO machine from the empty stack. -/
def lifoRun {α : Type} (ops : List (SOp α)) : List α × List (Option α) :=
  ops.foldl lifoStep ([], [])

/-- Number of pushes in a sequence of stack operations (a stack push
always succeeds). -/
def numPush {α : Type} (ops : List (SOp α)) : Nat :=
  ops.countP (fun o => match o with | .push _ => true | .pop => false)

/-- Number of successful pops among recorded pop outcomes. -/
def numPopOk {α : Type} (outs : List (Option α)) : Nat :=
  outs.countP (fun o => o.isSome)

/-- The linked chain hanging off a node reference in a stack arena:
`NodeChain arena p l` states that following `next` links from `p` visits
nodes holding exactly the values of `l`, ending at null. -/
inductive NodeChain {α : Type} (arena : List (α × Option Nat)) :
    Option Nat → List α → Prop where
  | nil : NodeChain arena none []
  | cons {i : Nat} {d : α} {nxt : Option Nat} {l : List α} :
      arena[i]? = some (d, nxt) → NodeChain arena nxt l →
      NodeChain arena (some i) (d :: l)

/-- The alternating operation sequence `push 0, (pop, push 0), …,
(pop, push 0)` with `n` pop/push pairs: `2 * n + 1` operations in
total, each of which succeeds, while at most one node is ever live. -/
def opsAlt : Nat → List (SOp Nat)
  | 0 => [SOp.push 0]
  | n + 1 => opsAlt n ++ [SOp.pop, SOp.push 0]

/-- The refinement relation between a stack state and the ideal LIFO
list it represents: the chain from the head holds exactly the list, and
the approximate counter is the list length reduced modulo `2 ^ 64`. -/
def StackRel {α : Type} (s : LockFreeStack α) (l : List α) : Prop :=
  NodeChain s.arena s.mHead.ptr l ∧ s.mSize = l.length % U64

example : (STrace.run (α := Nat) [.push 1, .push 2, .push 3, .pop, .pop, .pop, .pop]).outs
    = [some 3, some 2, some 1, none] := by decide

example : (RBTrace.run (α := Nat) 4 [.push 7, .push 8, .pop, .push 9]).popped
    = [7] := by decide

example : (RBTrace.run (α := Nat) 4
    [.push 1, .push 2, .push 3, .push 4]).pushed = [1, 2, 3] := by decide

/-!
## Arithmetic of masked indices

`CAPACITY` is a power of two `2 ^ k` with `1 ≤ k ≤ 64`, so the bit mask
`x &&& (CAPACITY - 1)` is the remainder `x % CAPACITY`, and a previous
wrapping reduction modulo `2 ^ 64` is absorbed.
-/

theorem GoodCap.two_le {N : Nat} (hN : GoodCap N) : 2 ≤ N := by
  obtain ⟨k, hk1, _, rfl⟩ := hN
  calc 2 = 2 ^ 1 := by norm_num
  _ ≤ 2 ^ k := Nat.pow_le_pow_right (by norm_num) hk1

theorem GoodCap.dvd_u64 {N : Nat} (hN : GoodCap N) : N ∣ U64 := by
  obtain ⟨k, _, hk64, rfl⟩ := hN
  exact pow_dvd_pow 2 hk64

theorem GoodCap.mask {N : Nat} (hN : GoodCap N) (x : Nat) :
    (x % U64) &&& (N - 1) = x % N := by
  obtain ⟨k, hk1, hk64, rfl⟩ := hN
  rw [Nat.and_pow_two_sub_one_eq_mod, U64,
    Nat.mod_mod_of_dvd _ (pow_dvd_pow 2 hk64)]

theorem u64_pos : 0 < U64 := by
  rw [U64]; positivity

/-- Characterisation of `(h + i) % N` for `h < N` and `i ≤ N`. -/
theorem add_mod_char {N h i : Nat} (hh : h < N) (hi : i ≤ N) :
    (h + i) % N = if h + i < N then h + i else h + i - N := by
  split
  · exact Nat.mod_eq_of_lt (by assumption)
  · rw [Nat.mod_eq_sub_mod (by omega)]
    exact Nat.mod_eq_of_lt (by omega)

/-- `(h + i) % N` determines `i` on `[0, N)`. -/
theorem add_mod_inj {N h i j : Nat} (hh : h < N) (hi : i < N) (hj : j < N)
    (e : (h + i) % N = (h + j) % N) : i = j := by
  rw [add_mod_char hh (Nat.le_of_lt hi), add_mod_char hh (Nat.le_of_lt hj)] at e
  split at e <;> split at e <;> omega

/-- Stepping a remainder that is not about to wrap. -/
theorem succ_mod_of_lt {X N : Nat} (h : X % N + 1 < N) :
    (X + 1) % N = X % N + 1 := by
  conv_lhs => rw [← Nat.div_add_mod X N, Nat.add_assoc]
  rw [Nat.mul_add_mod]
  exact Nat.mod_eq_of_lt h

/-- Closed form of `rbSz` for in-range indices. -/
theorem rbSz_if {N h t : Nat} (hh : h < N) (ht : t < N) :
    rbSz N h t = if h ≤ t then t - h else t + (N - h) := by
  unfold rbSz
  split
  · rw [show t + (N - h) = (t - h) + N by omega, Nat.add_mod_right]
    exact Nat.mod_eq_of_lt (by omega)
  · exact Nat.mod_eq_of_lt (by omega)

theorem rbSz_lt {N h t : Nat} (hN : 0 < N) : rbSz N h t < N :=
  Nat.mod_lt _ hN

/-- The buffer-full test of `push` detects exactly the count `N - 1`. -/
theorem full_iff_rbSz {N h t : Nat} (hh : h < N) (ht : t < N) :
    (t + 1) % N = h ↔ rbSz N h t = N - 1 := by
  rw [add_mod_char ht (by omega), rbSz_if hh ht]
  split <;> split <;> omega

/-- The buffer-empty test of `pop` detects exactly the count `0`. -/
theorem empty_iff_rbSz {N h t : Nat} (hh : h < N) (ht : t < N) :
    h = t ↔ rbSz N h t = 0 := by
  rw [rbSz_if hh ht]
  split <;> omega

/-- `size()` computes `rbSz`: the wrapping `std::size_t` subtraction
followed by the bit mask agrees with the mathematical count. -/
theorem size_eq_rbSz {α : Type} {N : Nat} (hN : GoodCap N)
    (rb : SPSCRingBuffer α N) (hh : rb.mHead < N) :
    rb.size = rbSz N rb.mHead rb.mTail := by
  have hdvd := hN.dvd_u64
  have hNle : N ≤ U64 := Nat.le_of_dvd u64_pos hdvd
  obtain ⟨c, hc⟩ := hdvd
  rw [SPSCRingBuffer.size, Nat.mod_add_mod, hN.mask, rbSz,
    show rb.mTail + (U64 - rb.mHead) + N = (rb.mTail + (N - rb.mHead)) + U64 by
      omega,
    hc, Nat.add_mul_mod_self_left]

/-!
## Ring-buffer simulation lemmas
-/

/-- `push` with the mask rewritten to a plain remainder. -/
theorem SPSCRingBuffer.push_eq {α : Type} {N : Nat} (hN : GoodCap N)
    (rb : SPSCRingBuffer α N) (v : α) :
    rb.push v =
      if (rb.mTail + 1) % N = rb.mHead then (false, rb)
      else (true, { rb with mTail := (rb.mTail + 1) % N,
                            mBuffer := rb.mBuffer.set rb.mTail v }) := by
  rw [SPSCRingBuffer.push]
  simp only [hN.mask]

/-- `pop` with the mask rewritten to a plain remainder. -/
theorem SPSCRingBuffer.pop_eq {α : Type} {N : Nat} (hN : GoodCap N)
    (rb : SPSCRingBuffer α N) (x : α) :
    rb.pop x =
      if rb.mHead = rb.mTail then (false, rb, x)
      else (true, { rb with mHead := (rb.mHead + 1) % N },
        rb.mBuffer.getD rb.mHead x) := by
  rw [SPSCRingBuffer.pop]
  simp only [hN.mask]

/-- A successful push increments the element count. -/
theorem rbSz_push {N h t : Nat} (hN2 : 2 ≤ N) (hh : h < N) (ht : t < N)
    (hok : (t + 1) % N ≠ h) :
    rbSz N h ((t + 1) % N) = rbSz N h t + 1 := by
  have hlt : rbSz N h t < N := rbSz_lt (by omega)
  have hne : rbSz N h t ≠ N - 1 := fun hc => hok ((full_iff_rbSz hh ht).mpr hc)
  calc rbSz N h ((t + 1) % N)
      = ((t + 1) % N + (N - h)) % N := rfl
    _ = (t + 1 + (N - h)) % N := Nat.mod_add_mod _ _ _
    _ = (t + (N - h) + 1) % N := by ring_nf
    _ = (t + (N - h)) % N + 1 := succ_mod_of_lt (by unfold rbSz at hlt hne; omega)
    _ = rbSz N h t + 1 := rfl

/-- A successful pop decrements the element count. -/
theorem rbSz_pop {N h t : Nat} (hN2 : 2 ≤ N) (hh : h < N) (ht : t < N)
    (hne : h ≠ t) :
    rbSz N ((h + 1) % N) t = rbSz N h t - 1 := by
  have h2 := rbSz_if hh ht
  rcases Nat.lt_or_ge (h + 1) N with hc | hc
  · have h1 : (h + 1) % N = h + 1 := Nat.mod_eq_of_lt hc
    rw [h1, rbSz_if hc ht, h2]
    split <;> split <;> omega
  · have hEq : h + 1 = N := by omega
    have h1 : (h + 1) % N = 0 := by rw [hEq, Nat.mod_self]
    rw [h1, rbSz_if (show 0 < N by omega) ht, h2]
    split <;> split <;> omega

/-- The slot written by a successful push is the one just past the
current content. -/
theorem rbSz_top {N h t : Nat} (hh : h < N) (ht : t < N) :
    (h + rbSz N h t) % N = t := by
  rw [rbSz_if hh ht]
  split
  · rw [show h + (t - h) = t by omega]
    exact Nat.mod_eq_of_lt ht
  · rw [show h + (t + (N - h)) = t + N by omega, Nat.add_mod_right]
    exact Nat.mod_eq_of_lt ht

/-- A successful push appends its value to the abstract content. -/
theorem contents_push {α : Type} [Inhabited α] {N : Nat}
    {rb : SPSCRingBuffer α N} (hN2 : 2 ≤ N) (hI : rb.Inv) (v : α)
    (hok : (rb.mTail + 1) % N ≠ rb.mHead) :
    ({ rb with mTail := (rb.mTail + 1) % N,
               mBuffer := rb.mBuffer.set rb.mTail v } :
        SPSCRingBuffer α N).contents
      = rb.contents ++ [v] := by
  obtain ⟨hh, ht, hb⟩ := hI
  have hsz := rbSz_push hN2 hh ht hok
  have htop := rbSz_top hh ht
  rw [SPSCRingBuffer.contents, SPSCRingBuffer.contents]
  simp only
  rw [hsz, List.range_succ, List.map_append, List.map_cons, List.map_nil]
  congr 1
  · apply List.map_congr_left
    intro i hi
    rw [List.mem_range] at hi
    have hiN : (rb.mHead + i) % N ≠ rb.mTail := by
      intro hc
      have : i = rbSz N rb.mHead rb.mTail :=
        add_mod_inj hh (Nat.lt_trans hi (rbSz_lt (by omega)))
          (rbSz_lt (by omega)) (hc.trans htop.symm)
      omega
    rw [List.getD_eq_getElem?_getD, List.getD_eq_getElem?_getD,
      List.getElem?_set_ne (fun hc => hiN hc.symm)]
  · rw [htop, List.getD_eq_getElem?_getD,
      List.getElem?_set_self (by omega), Option.getD_some]

/-- A successful pop removes and returns the first element of the
abstract content. -/
theorem contents_pop {α : Type} [Inhabited α] {N : Nat}
    {rb : SPSCRingBuffer α N} (hN2 : 2 ≤ N) (hI : rb.Inv)
    (hne : rb.mHead ≠ rb.mTail) :
    rb.contents = rb.mBuffer.getD rb.mHead default ::
      ({ rb with mHead := (rb.mHead + 1) % N } : SPSCRingBuffer α N).contents := by
  obtain ⟨hh, ht, hb⟩ := hI
  have hsz0 : rbSz N rb.mHead rb.mTail ≠ 0 :=
    fun hc => hne ((empty_iff_rbSz hh ht).mpr hc)
  have hsz := rbSz_pop hN2 hh ht hne
  rw [SPSCRingBuffer.contents, SPSCRingBuffer.contents]
  simp only
  rw [hsz,
    show rbSz N rb.mHead rb.mTail = (rbSz N rb.mHead rb.mTail - 1) + 1 by omega,
    List.range_succ_eq_map, List.map_cons, Nat.add_zero,
    Nat.mod_eq_of_lt hh, List.map_map]
  rw [Nat.add_sub_cancel]
  congr 1
  apply List.map_congr_left
  intro i hi
  simp only [Function.comp]
  rw [Nat.mod_add_mod, show rb.mHead + 1 + i = rb.mHead + Nat.succ i by omega]

/-- A freshly constructed buffer satisfies the run invariant. -/
theorem rbgood_init {α : Type} [Inhabited α] {N : Nat} (hN2 : 2 ≤ N) :
    RBGood (⟨SPSCRingBuffer.init N, [], []⟩ : RBTrace α N) := by
  constructor
  · refine ⟨?_, ?_, ?_⟩ <;> simp [SPSCRingBuffer.init] <;> omega
  · simp [SPSCRingBuffer.contents, SPSCRingBuffer.init, rbSz, Nat.mod_self]

/-- One run step preserves the refinement invariant. -/
theorem rbgood_step {α : Type} [Inhabited α] {N : Nat} (hN : GoodCap N)
    (t : RBTrace α N) (hG : RBGood t) (op : RBOp α) : RBGood (t.step op) := by
  have hN2 := hN.two_le
  obtain ⟨hI, hrep⟩ := hG
  obtain ⟨hh, ht, hb⟩ := hI
  cases op with
  | push v =>
    by_cases hc : (t.state.mTail + 1) % N = t.state.mHead
    · have he : t.state.push v = (false, t.state) := by
        rw [SPSCRingBuffer.push_eq hN, if_pos hc]
      simp only [RBTrace.step, he]
      exact ⟨⟨hh, ht, hb⟩, hrep⟩
    · have he : t.state.push v =
          (true, { t.state with mTail := (t.state.mTail + 1) % N,
                                mBuffer := t.state.mBuffer.set t.state.mTail v }) := by
        rw [SPSCRingBuffer.push_eq hN, if_neg hc]
      simp only [RBTrace.step, he, if_pos]
      refine ⟨⟨hh, Nat.mod_lt _ (by omega), by simp [hb]⟩, ?_⟩
      simp only
      rw [contents_push hN2 ⟨hh, ht, hb⟩ v hc, ← List.append_assoc, hrep]
  | pop =>
    by_cases hc : t.state.mHead = t.state.mTail
    · have he : t.state.pop default = (false, t.state, default) := by
        rw [SPSCRingBuffer.pop_eq hN, if_pos hc]
      simp only [RBTrace.step, he]
      exact ⟨⟨hh, ht, hb⟩, hrep⟩
    · have he : t.state.pop default =
          (true, { t.state with mHead := (t.state.mHead + 1) % N },
            t.state.mBuffer.getD t.state.mHead default) := by
        rw [SPSCRingBuffer.pop_eq hN, if_neg hc]
      simp only [RBTrace.step, he, if_pos]
      refine ⟨⟨Nat.mod_lt _ (by omega), ht, hb⟩, ?_⟩
      simp only
      rw [List.append_assoc, List.singleton_append,
        ← contents_pop hN2 ⟨hh, ht, hb⟩ hc, hrep]

/-- Every run from a freshly constructed buffer satisfies the refinement
invariant. -/
theorem rbgood_run {α : Type} [Inhabited α] {N : Nat} (hN : GoodCap N)
    (ops : List (RBOp α)) : RBGood (RBTrace.run N ops) := by
  rw [RBTrace.run]
  have h0 : RBGood (⟨SPSCRingBuffer.init N, [], []⟩ : RBTrace α N) :=
    rbgood_init hN.two_le
  generalize (⟨SPSCRingBuffer.init N, [], []⟩ : RBTrace α N) = t0 at h0 ⊢
  induction ops generalizing t0 with
  | nil => exact h0
  | cons op rest ih => exact ih _ (rbgood_step hN t0 h0 op)

/-!
## Stack simulation lemmas
-/

/-- Allocating a fresh node at the end of the arena does not disturb any
existing chain. -/
theorem nodeChain_append {α : Type} {arena : List (α × Option Nat)}
    {p : Option Nat} {l : List α} (hc : NodeChain arena p l)
    (x : α × Option Nat) : NodeChain (arena ++ [x]) p l := by
  induction hc with
  | nil => exact NodeChain.nil
  | cons hget _ ih =>
    refine NodeChain.cons ?_ ih
    have hi := (List.getElem?_eq_some_iff.mp hget).1
    rw [List.getElem?_append_left hi]
    exact hget

/-- A chain for an empty list starts at null. -/
theorem nodeChain_nil_ptr {α : Type} {arena : List (α × Option Nat)}
    {p : Option Nat} (hc : NodeChain arena p []) : p = none := by
  cases hc
  rfl

/-- `push` preserves the refinement relation, consing the new value. -/
theorem stackRel_push {α : Type} {s : LockFreeStack α} {l : List α}
    (hR : StackRel s l) (v : α) : StackRel (s.push v) (v :: l) := by
  obtain ⟨hc, hs⟩ := hR
  constructor
  · refine NodeChain.cons ?_ (nodeChain_append hc _)
    simp [LockFreeStack.push, LockFreeStack.push_node, List.getElem?_concat_length]
  · simp only [LockFreeStack.push, LockFreeStack.push_node, hs, List.length_cons]
    rw [Nat.mod_add_mod]

/-- `pop` on a state representing the empty list fails and changes
nothing. -/
theorem stackRel_pop_nil {α : Type} [Inhabited α] {s : LockFreeStack α}
    (hR : StackRel s []) (x : α) : s.pop x = (false, s, x) := by
  have hp : s.mHead.ptr = none := nodeChain_nil_ptr hR.1
  rw [LockFreeStack.pop, hp]

/-- `pop` on a state representing `a :: l` succeeds, returns `a` and
re-establishes the relation at `l`. -/
theorem stackRel_pop_cons {α : Type} [Inhabited α] {s : LockFreeStack α}
    {a : α} {l : List α} (hR : StackRel s (a :: l)) (x : α) :
    (s.pop x).1 = true ∧ (s.pop x).2.2 = a ∧ StackRel (s.pop x).2.1 l := by
  obtain ⟨hc, hs⟩ := hR
  generalize hp : s.mHead.ptr = p at hc
  cases hc with
  | cons hget htail =>
    rename_i i nxt
    have hnode : s.arena.getD i (default, none) = (a, nxt) := by
      rw [List.getD_eq_getElem?_getD, hget, Option.getD_some]
    constructor
    · rw [LockFreeStack.pop, hp]
    constructor
    · rw [LockFreeStack.pop, hp]
      simp only [hnode]
    · constructor
      · rw [LockFreeStack.pop, hp]
        simp only [hnode]
        exact htail
      · rw [LockFreeStack.pop, hp]
        simp only [hnode, List.length_cons] at hs ⊢
        rw [hs, Nat.mod_add_mod,
          show l.length + 1 + (U64 - 1) = l.length + U64 by
            have := u64_pos; omega,
          Nat.add_mod_right]

/-- Master simulation: from related start states, the stack machine and
the ideal LIFO machine produce the same pop outcomes and end in related
states. -/
theorem stack_sim {α : Type} [Inhabited α] (ops : List (SOp α)) :
    ∀ (s : LockFreeStack α) (l : List α) (outs : List (Option α)),
      StackRel s l →
      (List.foldl STrace.step ⟨s, outs⟩ ops).outs
          = (List.foldl lifoStep (l, outs) ops).2
      ∧ StackRel (List.foldl STrace.step ⟨s, outs⟩ ops).state
          (List.foldl lifoStep (l, outs) ops).1 := by
  induction ops with
  | nil => exact fun s l outs hR => ⟨rfl, hR⟩
  | cons op rest ih =>
    intro s l outs hR
    cases op with
    | push v =>
      simpa only [List.foldl_cons, STrace.step, lifoStep]
        using ih (s.push v) (v :: l) outs (stackRel_push hR v)
    | pop =>
      cases l with
      | nil =>
        have he := stackRel_pop_nil hR (default : α)
        simpa only [List.foldl_cons, STrace.step, lifoStep, he]
          using ih s [] (outs ++ [none]) hR
      | cons a l =>
        obtain ⟨h1, h2, h3⟩ := stackRel_pop_cons hR (default : α)
        have := ih (s.pop default).2.1 l (outs ++ [some a]) h3
        simpa only [List.foldl_cons, STrace.step, lifoStep, h1, h2, if_pos]
          using this

/-- The initial stack is related to the empty list. -/
theorem stackRel_init {α : Type} : StackRel (LockFreeStack.init (α := α)) [] :=
  ⟨NodeChain.nil, by simp [LockFreeStack.init, Nat.zero_mod]⟩

/-- Element count of the ideal LIFO machine: live elements plus
successful pops always equals initial elements plus pushes. -/
theorem lifo_count {α : Type} (ops : List (SOp α)) :
    ∀ (l : List α) (outs : List (Option α)),
      (List.foldl lifoStep (l, outs) ops).1.length
          + numPopOk (List.foldl lifoStep (l, outs) ops).2
        = l.length + numPopOk outs + numPush ops := by
  induction ops with
  | nil => intro l outs; simp [numPush]
  | cons op rest ih =>
    intro l outs
    cases op with
    | push v =>
      have := ih (v :: l) outs
      simp only [List.foldl_cons, lifoStep] at this ⊢
      rw [this]
      simp [numPush, List.countP_cons]
      omega
    | pop =>
      cases l with
      | nil =>
        have := ih [] (outs ++ [none])
        simp only [List.foldl_cons, lifoStep] at this ⊢
        rw [this]
        simp [numPush, numPopOk, List.countP_cons, List.countP_append]
      | cons a l =>
        have := ih l (outs ++ [some a])
        simp only [List.foldl_cons, lifoStep] at this ⊢
        rw [this]
        simp [numPush, numPopOk, List.countP_cons, List.countP_append]
        omega

/-- Explicit form of a `pop` whose head pointer is non-null. -/
theorem LockFreeStack.pop_some {α : Type} [Inhabited α] {s : LockFreeStack α}
    {i : Nat} (hp : s.mHead.ptr = some i) (x : α) :
    s.pop x =
      (true,
        { arena := s.arena,
          mHead := ⟨(s.arena.getD i (default, none)).2,
            (s.mHead.counter + 1) % U64⟩,
          mSize := (s.mSize + (U64 - 1)) % U64 },
        (s.arena.getD i (default, none)).1) := by
  rw [LockFreeStack.pop, hp]

/-- State reached by the alternating sequence `opsAlt n`: the head holds
a single live node containing `0`, and the tag counter has been bumped
once per operation, `2 * n + 1` times in total. -/
theorem opsAlt_state (n : Nat) :
    ∃ i, (STrace.run (opsAlt n)).state.mHead.ptr = some i
      ∧ ((STrace.run (opsAlt n)).state.arena)[i]? = some (0, none)
      ∧ (STrace.run (opsAlt n)).state.mHead.counter = (2 * n + 1) % U64 := by
  induction n with
  | zero => exact ⟨0, rfl, rfl, rfl⟩
  | succ n ih =>
    obtain ⟨i, hp, ha, hc⟩ := ih
    have hnode : (STrace.run (opsAlt n)).state.arena.getD i (default, none)
        = ((0 : Nat), none) := by
      rw [List.getD_eq_getElem?_getD, ha, Option.getD_some]
    have hrun : STrace.run (opsAlt (n + 1))
        = STrace.step (STrace.step (STrace.run (opsAlt n)) SOp.pop)
            (SOp.push 0) := by
      rw [STrace.run, opsAlt, List.foldl_append]
      rfl
    have hpop := LockFreeStack.pop_some hp (default : Nat)
    rw [hnode] at hpop
    refine ⟨(STrace.run (opsAlt n)).state.arena.length, ?_, ?_, ?_⟩
    · rw [hrun]
      simp only [STrace.step, hpop, if_pos, LockFreeStack.push,
        LockFreeStack.push_node]
    · rw [hrun]
      simp only [STrace.step, hpop, if_pos, LockFreeStack.push,
        LockFreeStack.push_node]
      exact List.getElem?_concat_length _ _
    · rw [hrun]
      simp only [STrace.step, hpop, if_pos, LockFreeStack.push,
        LockFreeStack.push_node]
      rw [hc, Nat.mod_add_mod, Nat.add_assoc, Nat.mod_add_mod,
        show 2 * n + 1 + (1 + 1) = 2 * (n + 1) + 1 by omega]

/-- State reached by `n` consecutive pushes of `0`: the approximate size
counter is `n` reduced modulo `2 ^ 64`, and no pop outcome is recorded. -/
theorem push_rep (n : Nat) :
    (STrace.run (List.replicate n (SOp.push (0 : Nat)))).state.mSize = n % U64
    ∧ (STrace.run (List.replicate n (SOp.push (0 : Nat)))).outs = [] := by
  induction n with
  | zero => exact ⟨rfl, rfl⟩
  | succ n ih =>
    obtain ⟨h1, h2⟩ := ih
    have hrun : STrace.run (List.replicate (n + 1) (SOp.push (0 : Nat)))
        = STrace.step (STrace.run (List.replicate n (SOp.push 0)))
            (SOp.push 0) := by
      rw [STrace.run, List.replicate_succ', List.foldl_append]
      rfl
    rw [hrun]
    constructor
    · simp only [STrace.step, LockFreeStack.push, LockFreeStack.push_node]
      rw [h1, Nat.mod_add_mod]
    · simp only [STrace.step]
      exact h2

/-- The tag counter written by `push_node`, on any state. -/
theorem push_counter {α : Type} (s : LockFreeStack α) (v : α) :
    (s.push v).mHead.counter = (s.mHead.counter + 1) % U64 :=
  rfl

/-- `push` reports failure exactly when the element count is `N - 1`. -/
theorem push_false_iff {α : Type} {N : Nat} (hN : GoodCap N)
    (rb : SPSCRingBuffer α N) (hh : rb.mHead < N) (ht : rb.mTail < N) (v : α) :
    (rb.push v).1 = false ↔ rbSz N rb.mHead rb.mTail = N - 1 := by
  rw [SPSCRingBuffer.push_eq hN, ← full_iff_rbSz hh ht]
  by_cases hc : (rb.mTail + 1) % N = rb.mHead
  · simp [hc]
  · simp [hc]

/-- `pop` reports failure exactly when the element count is `0`. -/
theorem pop_false_iff {α : Type} {N : Nat} (hN : GoodCap N)
    (rb : SPSCRingBuffer α N) (hh : rb.mHead < N) (ht : rb.mTail < N) (x : α) :
    (rb.pop x).1 = false ↔ rbSz N rb.mHead rb.mTail = 0 := by
  rw [SPSCRingBuffer.pop_eq hN, ← empty_iff_rbSz hh ht]
  by_cases hc : rb.mHead = rb.mTail
  · simp [hc]
  · simp [hc]

/-!
## The claims
-/

/-- Claim C1: for every sequence of push and pop operations on the SPSC
ring buffer performed sequentially, the values returned by successful
pops, followed by the values still stored, reconstruct the successfully
pushed values in push order — so the popped sequence is always the
longest consumed prefix of the pushed sequence, and once the buffer
reports empty the two sequences coincide exactly.  The capacity is any
declarable power of two, and the operation sequence is arbitrary, so the
statement covers arbitrarily many index wrap-arounds. -/
theorem C1_spsc_fifo_roundtrip {α : Type} [Inhabited α] {N : Nat}
    (hN : GoodCap N) (ops : List (RBOp α)) :
    (RBTrace.run N ops).popped ++ (RBTrace.run N ops).state.contents
        = (RBTrace.run N ops).pushed
    ∧ ((RBTrace.run N ops).state.empty = true →
        (RBTrace.run N ops).popped = (RBTrace.run N ops).pushed) := by
  obtain ⟨⟨hh, ht, hb⟩, hrep⟩ := rbgood_run hN ops
  refine ⟨hrep, fun he => ?_⟩
  have hht : (RBTrace.run N ops).state.mHead
      = (RBTrace.run N ops).state.mTail := by
    simpa [SPSCRingBuffer.empty] using he
  have hsz := (empty_iff_rbSz hh ht).mp hht
  have hc : (RBTrace.run N ops).state.contents = [] := by
    rw [SPSCRingBuffer.contents, hsz]
    rfl
  rw [hc, List.append_nil] at hrep
  exact hrep

/-- Concrete instantiation of the round-trip theorem: capacity 4 (3
usable slots), ten operations, with the indices wrapping around twice;
all five pushed values come back out in push order and the buffer
drains. -/
theorem C1_witness :
    (RBTrace.run (α := Nat) 4 [.push 1, .push 2, .push 3, .pop, .pop,
        .push 4, .push 5, .pop, .pop, .pop]).popped = [1, 2, 3, 4, 5]
    ∧ (RBTrace.run (α := Nat) 4 [.push 1, .push 2, .push 3, .pop, .pop,
        .push 4, .push 5, .pop, .pop, .pop]).pushed = [1, 2, 3, 4, 5]
    ∧ (RBTrace.run (α := Nat) 4 [.push 1, .push 2, .push 3, .pop, .pop,
          .push 4, .push 5, .pop, .pop, .pop]).popped
        ++ (RBTrace.run (α := Nat) 4 [.push 1, .push 2, .push 3, .pop, .pop,
          .push 4, .push 5, .pop, .pop, .pop]).state.contents
      = (RBTrace.run (α := Nat) 4 [.push 1, .push 2, .push 3, .pop, .pop,
          .push 4, .push 5, .pop, .pop, .pop]).pushed :=
  ⟨by decide, by decide,
    (C1_spsc_fifo_roundtrip ⟨2, by decide, by decide, by decide⟩ _).1⟩

/-- Claim C2: in every reachable state of a ring buffer declared with a
legal size `N`, `capacity()` returns `N - 1`, `push` returns `false`
exactly when `size() == capacity()`, and `pop` returns `false` exactly
when `size() == 0`. -/
theorem C2_ring_failure_conditions {α : Type} [Inhabited α] {N : Nat}
    (hN : GoodCap N) (ops : List (RBOp α)) (v x : α) :
    (RBTrace.run N ops).state.capacity = N - 1
    ∧ (((RBTrace.run N ops).state.push v).1 = false
        ↔ (RBTrace.run N ops).state.size = (RBTrace.run N ops).state.capacity)
    ∧ (((RBTrace.run N ops).state.pop x).1 = false
        ↔ (RBTrace.run N ops).state.size = 0) := by
  obtain ⟨⟨hh, ht, hb⟩, _⟩ := rbgood_run hN ops
  have hsz := size_eq_rbSz hN _ hh
  refine ⟨rfl, ?_, ?_⟩
  · rw [push_false_iff hN _ hh ht v, hsz, SPSCRingBuffer.capacity]
  · rw [pop_false_iff hN _ hh ht x, hsz]

/-- Concrete instantiation of the failure-condition theorem at capacity
4 after a single push: `size` is 1, `capacity` is 3, and both failure
equivalences hold in that state. -/
theorem C2_witness :
    (RBTrace.run (α := Nat) 4 [.push 1]).state.size = 1
    ∧ (RBTrace.run (α := Nat) 4 [.push 1]).state.capacity = 3
    ∧ (((RBTrace.run (α := Nat) 4 [.push 1]).state.push 2).1 = false
        ↔ (RBTrace.run (α := Nat) 4 [.push 1]).state.size
            = (RBTrace.run (α := Nat) 4 [.push 1]).state.capacity)
    ∧ (((RBTrace.run (α := Nat) 4 [.push 1]).state.pop 0).1 = false
        ↔ (RBTrace.run (α := Nat) 4 [.push 1]).state.size = 0) :=
  ⟨by decide, by decide,
    (C2_ring_failure_conditions ⟨2, by decide, by decide, by decide⟩
      [.push 1] 2 0).2.1,
    (C2_ring_failure_conditions ⟨2, by decide, by decide, by decide⟩
      [.push 1] 2 0).2.2⟩

/-- Claim C3: on the MPSC queue used sequentially from a fresh queue,
after `push 0`, `push 1`, `push 2`, three successive pops succeed and
yield 0, 1, 2 in push order, and a fourth pop returns `false` leaving
its output argument (initial value `d`, arbitrary) unchanged; the first
three pops likewise overwrite arbitrary prior output values `a`, `b`,
`c`. -/
theorem C3_queue_fifo_scenario (a b c d : Nat) :
    ((((MPSCQueue.init.push 0).2.push 1).2.push 2).2.pop a).1 = true
    ∧ ((((MPSCQueue.init.push 0).2.push 1).2.push 2).2.pop a).2.2 = 0
    ∧ (((((MPSCQueue.init.push 0).2.push 1).2.push 2).2.pop a).2.1.pop b).1
        = true
    ∧ (((((MPSCQueue.init.push 0).2.push 1).2.push 2).2.pop a).2.1.pop b).2.2
        = 1
    ∧ ((((((MPSCQueue.init.push 0).2.push 1).2.push 2).2.pop a).2.1.pop
        b).2.1.pop c).1 = true
    ∧ ((((((MPSCQueue.init.push 0).2.push 1).2.push 2).2.pop a).2.1.pop
        b).2.1.pop c).2.2 = 2
    ∧ (((((((MPSCQueue.init.push 0).2.push 1).2.push 2).2.pop a).2.1.pop
        b).2.1.pop c).2.1.pop d).1 = false
    ∧ (((((((MPSCQueue.init.push 0).2.push 1).2.push 2).2.pop a).2.1.pop
        b).2.1.pop c).2.1.pop d).2.2 = d :=
  ⟨rfl, rfl, rfl, rfl, rfl, rfl, rfl, rfl⟩

/-- Claim C4: the MPMC stack used sequentially is observationally equal
to the ideal LIFO machine: on any operation sequence from a fresh stack,
every pop outcome (success flag and value) matches the ideal stack that
returns the most recently pushed value not yet popped; in particular the
concrete scenario push 1, push 2, push 3 then four pops yields 3, 2, 1
and a failing fourth pop. -/
theorem C4_stack_lifo {α : Type} [Inhabited α] (ops : List (SOp α)) :
    (STrace.run ops).outs = (lifoRun ops).2
    ∧ (STrace.run (α := Nat)
          [.push 1, .push 2, .push 3, .pop, .pop, .pop, .pop]).outs
        = [some 3, some 2, some 1, none] := by
  refine ⟨?_, by decide⟩
  rw [STrace.run, lifoRun]
  exact (stack_sim ops LockFreeStack.init [] [] stackRel_init).1

/-- Claim C5: whenever an operation returns `false` — ring-buffer push
on full, or ring-buffer, queue, or stack pop on empty — the
caller-supplied output parameter is unmodified and the structure state
is exactly as before the call. -/
theorem C5_failure_frame {α : Type} [Inhabited α] {N : Nat}
    (rb : SPSCRingBuffer α N) (v x : α) (q : MPSCQueue α) (y : α)
    (s : LockFreeStack α) (z : α) :
    ((rb.push v).1 = false → (rb.push v).2 = rb)
    ∧ ((rb.pop x).1 = false → (rb.pop x).2.1 = rb ∧ (rb.pop x).2.2 = x)
    ∧ ((q.pop y).1 = false → (q.pop y).2.1 = q ∧ (q.pop y).2.2 = y)
    ∧ ((s.pop z).1 = false → (s.pop z).2.1 = s ∧ (s.pop z).2.2 = z) := by
  refine ⟨?_, ?_, ?_, ?_⟩
  · by_cases hc : ((rb.mTail + 1) % U64) &&& (N - 1) = rb.mHead
    · intro _
      simp [SPSCRingBuffer.push, hc]
    · intro hf
      exfalso
      simp [SPSCRingBuffer.push, hc] at hf
  · by_cases hc : rb.mHead = rb.mTail
    · intro _
      simp [SPSCRingBuffer.pop, hc]
    · intro hf
      exfalso
      simp [SPSCRingBuffer.pop, hc] at hf
  · cases hq : (q.arena.getD q.head_ (none, default)).1 with
    | none =>
      intro _
      have he : q.pop y = (false, q, y) := by
        rw [MPSCQueue.pop, hq]
      rw [he]
      exact ⟨rfl, rfl⟩
    | some n =>
      intro hf
      have he : q.pop y = (true, ⟨q.arena, n, q.tail_⟩,
          (q.arena.getD n (none, default)).2) := by
        rw [MPSCQueue.pop, hq]
      rw [he] at hf
      simp at hf
  · cases hp : s.mHead.ptr with
    | none =>
      intro _
      have he : s.pop z = (false, s, z) := by
        rw [LockFreeStack.pop, hp]
      rw [he]
      exact ⟨rfl, rfl⟩
    | some i =>
      intro hf
      rw [LockFreeStack.pop_some hp] at hf
      simp at hf

/-- Concrete instantiations of the failure-frame theorem: a full ring
buffer rejecting a push unchanged, an empty ring buffer, a fresh queue
and a fresh stack all rejecting a pop while leaving both the state and
the output argument (here 7) untouched. -/
theorem C5_witness :
    ((⟨0, 3, [9, 9, 9, 9]⟩ : SPSCRingBuffer Nat 4).push 5).1 = false
    ∧ ((⟨0, 3, [9, 9, 9, 9]⟩ : SPSCRingBuffer Nat 4).push 5).2
        = ⟨0, 3, [9, 9, 9, 9]⟩
    ∧ ((⟨2, 2, [5, 5, 5, 5]⟩ : SPSCRingBuffer Nat 4).pop 7).1 = false
    ∧ ((⟨2, 2, [5, 5, 5, 5]⟩ : SPSCRingBuffer Nat 4).pop 7).2.1
        = ⟨2, 2, [5, 5, 5, 5]⟩
    ∧ ((⟨2, 2, [5, 5, 5, 5]⟩ : SPSCRingBuffer Nat 4).pop 7).2.2 = 7
    ∧ ((MPSCQueue.init (α := Nat)).pop 7).1 = false
    ∧ ((MPSCQueue.init (α := Nat)).pop 7).2.1 = MPSCQueue.init
    ∧ ((MPSCQueue.init (α := Nat)).pop 7).2.2 = 7
    ∧ ((LockFreeStack.init (α := Nat)).pop 7).1 = false
    ∧ ((LockFreeStack.init (α := Nat)).pop 7).2.1 = LockFreeStack.init
    ∧ ((LockFreeStack.init (α := Nat)).pop 7).2.2 = 7 := by
  have h1 := C5_failure_frame (⟨0, 3, [9, 9, 9, 9]⟩ : SPSCRingBuffer Nat 4)
    5 7 (MPSCQueue.init (α := Nat)) 7 (LockFreeStack.init (α := Nat)) 7
  have h2 := C5_failure_frame (⟨2, 2, [5, 5, 5, 5]⟩ : SPSCRingBuffer Nat 4)
    5 7 (MPSCQueue.init (α := Nat)) 7 (LockFreeStack.init (α := Nat)) 7
  refine ⟨by decide, h1.1 (by decide), by decide, (h2.2.1 (by decide)).1,
    (h2.2.1 (by decide)).2, by decide, (h2.2.2.1 (by decide)).1,
    (h2.2.2.1 (by decide)).2, by decide, (h2.2.2.2 (by decide)).1,
    (h2.2.2.2 (by decide)).2⟩

/-- Claim C6: `MPSCQueue::push` — both overloads, and the underlying
`push_node` — returns `true` for every input value in every queue
state. -/
theorem C6_queue_push_always_succeeds {α : Type} [Inhabited α]
    (q : MPSCQueue α) (v : α) :
    (q.push v).1 = true ∧ (q.pushMove v).1 = true
    ∧ (q.push_node v).1 = true :=
  ⟨rfl, rfl, rfl⟩

/-- Claim C7, amended: every successful push and every successful pop of
the MPMC stack replaces the tag counter by the previous counter plus one
reduced modulo `2 ^ 64` (the width of `uintptr_t`); consequently the
counter strictly increases at every successful update as long as it has
not yet reached `2 ^ 64 - 1`, and within any window of fewer than
`2 ^ 64` successful updates two head observations with the same node
address but different counters denote logically different states. -/
theorem C7_stack_counter_amended {α : Type} [Inhabited α]
    (s : LockFreeStack α) (v x : α) :
    (s.push v).mHead.counter = (s.mHead.counter + 1) % U64
    ∧ ((s.pop x).1 = true →
        (s.pop x).2.1.mHead.counter = (s.mHead.counter + 1) % U64)
    ∧ (s.mHead.counter + 1 < U64 →
        (s.push v).mHead.counter = s.mHead.counter + 1
        ∧ s.mHead.counter < (s.push v).mHead.counter
        ∧ ((s.pop x).1 = true →
            s.mHead.counter < (s.pop x).2.1.mHead.counter)) := by
  have hpush : (s.push v).mHead.counter = (s.mHead.counter + 1) % U64 := rfl
  have hpop : (s.pop x).1 = true →
      (s.pop x).2.1.mHead.counter = (s.mHead.counter + 1) % U64 := by
    cases hp : s.mHead.ptr with
    | none =>
      intro hf
      have he : s.pop x = (false, s, x) := by
        rw [LockFreeStack.pop, hp]
      rw [he] at hf
      simp at hf
    | some i =>
      intro _
      rw [LockFreeStack.pop_some hp]
  refine ⟨hpush, hpop, fun hlt => ?_⟩
  have he : (s.mHead.counter + 1) % U64 = s.mHead.counter + 1 :=
    Nat.mod_eq_of_lt hlt
  refine ⟨by rw [hpush, he], by rw [hpush, he]; omega, fun h => ?_⟩
  rw [hpop h, he]
  omega

/-- Concrete instantiation of the amended counter theorem: a stack whose
head is tagged with counter 5 moves to counter 6 on a push and on a
successful pop. -/
theorem C7_witness :
    ((⟨[(7, none)], ⟨some 0, 5⟩, 1⟩ : LockFreeStack Nat).push 9).mHead.counter
        = 6
    ∧ ((⟨[(7, none)], ⟨some 0, 5⟩, 1⟩ : LockFreeStack Nat).pop 0).1 = true
    ∧ ((⟨[(7, none)], ⟨some 0, 5⟩, 1⟩ :
          LockFreeStack Nat).pop 0).2.1.mHead.counter = 6
    ∧ (5 : Nat) <
        ((⟨[(7, none)], ⟨some 0, 5⟩, 1⟩ :
          LockFreeStack Nat).push 9).mHead.counter := by
  have h := C7_stack_counter_amended
    (⟨[(7, none)], ⟨some 0, 5⟩, 1⟩ : LockFreeStack Nat) 9 0
  have hlt : (5 : Nat) + 1 < U64 := by decide
  exact ⟨(h.2.2 hlt).1, by decide, h.2.1 (by decide), (h.2.2 hlt).2.1⟩

/-- Claim C7 fails as stated: the counter is a `uintptr_t` and wraps.
After the `2 ^ 64 - 1` alternating operations of
`opsAlt (2 ^ 63 - 1)` — a bounded-memory run in which every operation
succeeds — the head counter is `2 ^ 64 - 1`, and the next successful
push sets it to `0`, not to the previous counter plus one; the counter
does not strictly increase. -/
theorem C7_counterexample :
    (STrace.run (opsAlt (2 ^ 63 - 1))).state.mHead.counter = 2 ^ 64 - 1
    ∧ ((STrace.run (opsAlt (2 ^ 63 - 1))).state.push 0).mHead.counter = 0
    ∧ ¬ ((STrace.run (opsAlt (2 ^ 63 - 1))).state.push 0).mHead.counter
          = (STrace.run (opsAlt (2 ^ 63 - 1))).state.mHead.counter + 1
    ∧ ¬ (STrace.run (opsAlt (2 ^ 63 - 1))).state.mHead.counter
          < ((STrace.run (opsAlt (2 ^ 63 - 1))).state.push 0).mHead.counter := by
  obtain ⟨i, hp, ha, hc⟩ := opsAlt_state (2 ^ 63 - 1)
  have h1 : (STrace.run (opsAlt (2 ^ 63 - 1))).state.mHead.counter
      = 2 ^ 64 - 1 := by
    rw [hc, show 2 * (2 ^ 63 - 1) + 1 = 2 ^ 64 - 1 by norm_num]
    exact Nat.mod_eq_of_lt (by rw [U64]; omega)
  have h2 := push_counter (STrace.run (opsAlt (2 ^ 63 - 1))).state 0
  have h3 : ((STrace.run (opsAlt (2 ^ 63 - 1))).state.push 0).mHead.counter
      = 0 := by
    rw [h2, h1, show 2 ^ 64 - 1 + 1 = 2 ^ 64 by norm_num, ← U64, Nat.mod_self]
  refine ⟨h1, h3, ?_, ?_⟩
  · rw [h3, h1]
    norm_num
  · rw [h3, h1]
    omega

/-- Claim C9: after any sequence of operations from a fresh ring buffer
of legal capacity `N`, both indices are strictly below `N` (every update
is masked), the slot array still has `N` slots — so every slot access is
in bounds — and `size()` never exceeds `capacity()`. -/
theorem C9_ring_indices_in_bounds {α : Type} [Inhabited α] {N : Nat}
    (hN : GoodCap N) (ops : List (RBOp α)) :
    (RBTrace.run N ops).state.mHead < N
    ∧ (RBTrace.run N ops).state.mTail < N
    ∧ (RBTrace.run N ops).state.mBuffer.length = N
    ∧ (RBTrace.run N ops).state.size ≤ (RBTrace.run N ops).state.capacity := by
  obtain ⟨⟨hh, ht, hb⟩, _⟩ := rbgood_run hN ops
  have hsz := size_eq_rbSz hN _ hh
  refine ⟨hh, ht, hb, ?_⟩
  rw [hsz, SPSCRingBuffer.capacity]
  have h2 := hN.two_le
  have := rbSz_lt (h := (RBTrace.run N ops).state.mHead)
    (t := (RBTrace.run N ops).state.mTail) (show 0 < N by omega)
  omega

/-- Concrete instantiation of the bounds theorem: capacity 4, a wrapping
sequence of seven operations; the final indices are in range and the
size is within capacity. -/
theorem C9_witness :
    (RBTrace.run (α := Nat) 4
        [.push 1, .push 2, .push 3, .pop, .pop, .push 4, .push 5]).state.mHead
          < 4
    ∧ (RBTrace.run (α := Nat) 4
        [.push 1, .push 2, .push 3, .pop, .pop, .push 4, .push 5]).state.mTail
          < 4
    ∧ (RBTrace.run (α := Nat) 4
        [.push 1, .push 2, .push 3, .pop, .pop, .push 4,
          .push 5]).state.mBuffer.length = 4
    ∧ (RBTrace.run (α := Nat) 4
          [.push 1, .push 2, .push 3, .pop, .pop, .push 4, .push 5]).state.size
        ≤ (RBTrace.run (α := Nat) 4
          [.push 1, .push 2, .push 3, .pop, .pop, .push 4,
            .push 5]).state.capacity :=
  C9_ring_indices_in_bounds ⟨2, by decide, by decide, by decide⟩
    [.push 1, .push 2, .push 3, .pop, .pop, .push 4, .push 5]

/-- `size()` reads the approximate counter. -/
theorem stack_size_def {α : Type} (s : LockFreeStack α) : s.size = s.mSize :=
  rfl

/-- `empty()` compares the approximate counter with zero. -/
theorem stack_empty_def {α : Type} (s : LockFreeStack α) :
    s.empty = (s.mSize == 0) :=
  rfl

/-- On any sequential run, the approximate counter equals the number of
live elements — successful pushes minus successful pops — reduced modulo
`2 ^ 64`. -/
theorem stack_size_count {α : Type} [Inhabited α] (ops : List (SOp α)) :
    (STrace.run ops).state.mSize
        = (numPush ops - numPopOk (STrace.run ops).outs) % U64
    ∧ numPopOk (STrace.run ops).outs ≤ numPush ops := by
  have h := stack_sim ops LockFreeStack.init [] [] stackRel_init
  have hcount := lifo_count ops [] []
  have hrun : STrace.run ops
      = List.foldl STrace.step ⟨LockFreeStack.init, []⟩ ops := rfl
  rw [hrun, h.1, h.2.2]
  have h0 : numPopOk ([] : List (Option α)) = 0 := rfl
  rw [List.length_nil, h0] at hcount
  constructor
  · congr 1
    omega
  · omega

/-- Claim C10, amended: on any sequential run of the MPMC stack,
`size()` returns the number of successful pushes minus the number of
successful pops reduced modulo `2 ^ 64` (the width of `std::size_t`),
and `empty()` is true exactly when that reduced value is zero; whenever
the live count is below `2 ^ 64` — in particular in every execution a
64-bit machine can realize — the counters are exact as the claim
states. -/
theorem C10_stack_size_amended {α : Type} [Inhabited α]
    (ops : List (SOp α)) :
    (STrace.run ops).state.size
        = (numPush ops - numPopOk (STrace.run ops).outs) % U64
    ∧ ((STrace.run ops).state.empty = true
        ↔ (numPush ops - numPopOk (STrace.run ops).outs) % U64 = 0)
    ∧ (numPush ops - numPopOk (STrace.run ops).outs < U64 →
        (STrace.run ops).state.size
            = numPush ops - numPopOk (STrace.run ops).outs
        ∧ ((STrace.run ops).state.empty = true
            ↔ numPush ops - numPopOk (STrace.run ops).outs = 0)) := by
  obtain ⟨hs, hle⟩ := stack_size_count ops
  refine ⟨?_, ?_, fun hlt => ⟨?_, ?_⟩⟩
  · rw [stack_size_def, hs]
  · rw [stack_empty_def, hs]
    simp
  · rw [stack_size_def, hs, Nat.mod_eq_of_lt hlt]
  · rw [stack_empty_def, hs, Nat.mod_eq_of_lt hlt]
    simp

/-- Concrete instantiation of the amended size theorem: two pushes and
one successful pop leave `size() = 1 = 2 - 1` and a non-empty stack. -/
theorem C10_witness :
    (STrace.run (α := Nat) [.push 5, .push 6, .pop]).state.size = 1
    ∧ numPush (α := Nat) [.push 5, .push 6, .pop] = 2
    ∧ numPopOk (STrace.run (α := Nat) [.push 5, .push 6, .pop]).outs = 1
    ∧ (STrace.run (α := Nat) [.push 5, .push 6, .pop]).state.size
        = numPush (α := Nat) [.push 5, .push 6, .pop]
          - numPopOk (STrace.run (α := Nat) [.push 5, .push 6, .pop]).outs
    ∧ ((STrace.run (α := Nat) [.push 5, .push 6, .pop]).state.empty = true
        ↔ numPush (α := Nat) [.push 5, .push 6, .pop]
          - numPopOk (STrace.run (α := Nat) [.push 5, .push 6, .pop]).outs
            = 0) := by
  have h := C10_stack_size_amended (α := Nat) [.push 5, .push 6, .pop]
  have hlt : numPush (α := Nat) [.push 5, .push 6, .pop]
      - numPopOk (STrace.run (α := Nat) [.push 5, .push 6, .pop]).outs
        < U64 := by
    decide
  exact ⟨by decide, by decide, by decide, (h.2.2 hlt).1, (h.2.2 hlt).2⟩

/-- Claim C10 fails as stated: `mSize` is a `std::size_t` and wraps.
After `2 ^ 64` pushes from a fresh stack (an execution only the abstract
machine can realize, since it needs `2 ^ 64` live nodes), the number of
successful pushes minus successful pops is `2 ^ 64`, yet `size()`
returns `0` and `empty()` returns `true`. -/
theorem C10_counterexample :
    numPush (List.replicate (2 ^ 64) (SOp.push (0 : Nat)))
        - numPopOk (STrace.run (List.replicate (2 ^ 64)
            (SOp.push (0 : Nat)))).outs
      = 2 ^ 64
    ∧ (STrace.run (List.replicate (2 ^ 64)
        (SOp.push (0 : Nat)))).state.size = 0
    ∧ (STrace.run (List.replicate (2 ^ 64)
        (SOp.push (0 : Nat)))).state.empty = true := by
  obtain ⟨h1, h2⟩ := push_rep (2 ^ 64)
  have hnum : numPush (List.replicate (2 ^ 64) (SOp.push (0 : Nat)))
      = 2 ^ 64 := by
    rw [numPush, List.countP_replicate]
    simp
  refine ⟨?_, ?_, ?_⟩
  · rw [hnum, h2]
    rfl
  · rw [stack_size_def, h1, U64, Nat.mod_self]
  · rw [stack_empty_def, h1, U64, Nat.mod_self]
    rfl
